import Mathlib

/-!
Verification development for the push/version storage engine of the
SYG backend (Django apps `versions`, `projects`).

The definitions below are a shallow embedding of the Python source:

* `versions/tasks.py`   — manifest hashing, manifest construction,
  diffing against the previous version, the commit phase of
  `process_pending_push_new`, and its failure handler;
* `versions/models.py`  — `FileBlob` reference counting,
  `Version.assign_version_number` / `mark_completed` / `mark_failed`,
  the `version_pre_delete` signal, `PendingPush.mark_failed`,
  `DownloadRequest` expiration;
* `versions/views.py`   — the coalescing logic of
  `RequestVersionDownloadView.post`.

Machine integers are modelled as `Nat` (Python integers are unbounded,
so no wrap-around is needed); SHA-256 word arithmetic is `Nat` reduced
modulo `2 ^ 32` explicitly.  The file system handed to a worker is an
association list from relative path to file data; `os.path.getsize`
and `open(...).read()` are modelled as the `size` and `content` fields
of that data.  Wall-clock time is an explicit parameter.
-/

/-! ## SHA-256 over byte lists

Faithful model of Python `hashlib.sha256(...).hexdigest()`: bytes in,
lowercase hex string out. -/

def u32 (n : Nat) : Nat := n % 4294967296

def rotr32 (x n : Nat) : Nat := u32 ((x >>> n) ||| (x <<< (32 - n)))

def not32 (x : Nat) : Nat := 4294967295 ^^^ x

def shaCh (e f g : Nat) : Nat := (e &&& f) ^^^ (not32 e &&& g)

def shaMaj (a b c : Nat) : Nat := (a &&& b) ^^^ (a &&& c) ^^^ (b &&& c)

def shaS0 (a : Nat) : Nat := rotr32 a 2 ^^^ rotr32 a 13 ^^^ rotr32 a 22

def shaS1 (e : Nat) : Nat := rotr32 e 6 ^^^ rotr32 e 11 ^^^ rotr32 e 25

def shaG0 (x : Nat) : Nat := rotr32 x 7 ^^^ rotr32 x 18 ^^^ (x >>> 3)

def shaG1 (x : Nat) : Nat := rotr32 x 17 ^^^ rotr32 x 19 ^^^ (x >>> 10)

def shaK : List Nat :=
  [1116352408, 1899447441, 3049323471, 3921009573,
   961987163, 1508970993, 2453635748, 2870763221,
   3624381080, 310598401, 607225278, 1426881987,
   1925078388, 2162078206, 2614888103, 3248222580,
   3835390401, 4022224774, 264347078, 604807628,
   770255983, 1249150122, 1555081692, 1996064986,
   2554220882, 2821834349, 2952996808, 3210313671,
   3336571891, 3584528711, 113926993, 338241895,
   666307205, 773529912, 1294757372, 1396182291,
   1695183700, 1986661051, 2177026350, 2456956037,
   2730485921, 2820302411, 3259730800, 3345764771,
   3516065817, 3600352804, 4094571909, 275423344,
   430227734, 506948616, 659060556, 883997877,
   958139571, 1322822218, 1537002063, 1747873779,
   1955562222, 2024104815, 2227730452, 2361852424,
   2428436474, 2756734187, 3204031479, 3329325298]

structure ShaState where
  a : Nat
  b : Nat
  c : Nat
  d : Nat
  e : Nat
  f : Nat
  g : Nat
  h : Nat

def shaInit : ShaState :=
  ⟨1779033703, 3144134277, 1013904242, 2773480762,
   1359893119, 2600822924, 528734635, 1541459225⟩

def shaRound (st : ShaState) (k w : Nat) : ShaState :=
  let t1 := u32 (st.h + shaS1 st.e + shaCh st.e st.f st.g + k + w)
  let t2 := u32 (shaS0 st.a + shaMaj st.a st.b st.c)
  ⟨u32 (t1 + t2), st.a, st.b, st.c, u32 (st.d + t1), st.e, st.f, st.g⟩

def bytesToWords : List Nat → List Nat
  | b0 :: b1 :: b2 :: b3 :: rest => (((b0 * 256 + b1) * 256 + b2) * 256 + b3) :: bytesToWords rest
  | _ => []

def extendSchedule : Nat → List Nat → List Nat
  | 0, ws => ws
  | fuel + 1, ws =>
      let i := ws.length
      let w := u32 (shaG1 (ws.getD (i - 2) 0) + ws.getD (i - 7) 0 +
                    shaG0 (ws.getD (i - 15) 0) + ws.getD (i - 16) 0)
      extendSchedule fuel (ws ++ [w])

def shaRounds : List Nat → List Nat → ShaState → ShaState
  | k :: ks, w :: ws, st => shaRounds ks ws (shaRound st k w)
  | _, _, st => st

def shaAddState (x y : ShaState) : ShaState :=
  ⟨u32 (x.a + y.a), u32 (x.b + y.b), u32 (x.c + y.c), u32 (x.d + y.d),
   u32 (x.e + y.e), u32 (x.f + y.f), u32 (x.g + y.g), u32 (x.h + y.h)⟩

def shaBlock (st : ShaState) (block : List Nat) : ShaState :=
  let ws := extendSchedule 48 (bytesToWords block)
  shaAddState st (shaRounds shaK ws st)

def shaBlocks : Nat → List Nat → ShaState → ShaState
  | 0, _, st => st
  | fuel + 1, bytes, st => shaBlocks fuel (bytes.drop 64) (shaBlock st (bytes.take 64))

def lenBytes64 (n : Nat) : List Nat :=
  [n >>> 56 % 256, n >>> 48 % 256, n >>> 40 % 256, n >>> 32 % 256,
   n >>> 24 % 256, n >>> 16 % 256, n >>> 8 % 256, n % 256]

def shaPad (msg : List Nat) : List Nat :=
  let l := msg.length
  let zeros := (119 - l % 64) % 64
  msg ++ [0x80] ++ List.replicate zeros 0 ++ lenBytes64 (l * 8)

def hexDigit (n : Nat) : Char :=
  if n < 10 then Char.ofNat (48 + n) else Char.ofNat (87 + n)

def hex8 (w : Nat) : List Char :=
  [hexDigit (w >>> 28 % 16), hexDigit (w >>> 24 % 16), hexDigit (w >>> 20 % 16),
   hexDigit (w >>> 16 % 16), hexDigit (w >>> 12 % 16), hexDigit (w >>> 8 % 16),
   hexDigit (w >>> 4 % 16), hexDigit (w % 16)]

def sha256Bytes (msg : List Nat) : String :=
  let padded := shaPad msg
  let st := shaBlocks (padded.length / 64) padded shaInit
  String.mk (hex8 st.a ++ hex8 st.b ++ hex8 st.c ++ hex8 st.d ++
             hex8 st.e ++ hex8 st.f ++ hex8 st.g ++ hex8 st.h)

/-! UTF-8 encoding of a string, byte values as `Nat`. -/

def charUtf8 (c : Char) : List Nat :=
  let n := c.toNat
  if n < 0x80 then [n]
  else if n < 0x800 then [0xc0 ||| (n >>> 6), 0x80 ||| (n &&& 0x3f)]
  else if n < 0x10000 then
    [0xe0 ||| (n >>> 12), 0x80 ||| ((n >>> 6) &&& 0x3f), 0x80 ||| (n &&& 0x3f)]
  else
    [0xf0 ||| (n >>> 18), 0x80 ||| ((n >>> 12) &&& 0x3f),
     0x80 ||| ((n >>> 6) &&& 0x3f), 0x80 ||| (n &&& 0x3f)]

def utf8Bytes (s : String) : List Nat :=
  s.data.foldr (fun c acc => charUtf8 c ++ acc) []

def sha256Hex (s : String) : String := sha256Bytes (utf8Bytes s)

/-! ## Canonical JSON for manifest hashing

Model of `json.dumps(file_hashes, sort_keys=True)` in
`compute_manifest_hash` (`versions/tasks.py`).  Each element is a dict
with keys `path`, `hash`, `size`; `sort_keys=True` emits them in the
order `hash`, `path`, `size`, and the default separators are a comma
plus space and a colon plus space.  Python escapes the quote, the
backslash, control characters and all non-ASCII characters
(`ensure_ascii=True`). -/

def hex4 (n : Nat) : List Char :=
  [hexDigit (n >>> 12 % 16), hexDigit (n >>> 8 % 16), hexDigit (n >>> 4 % 16), hexDigit (n % 16)]

def jsonUniEscape (n : Nat) : List Char :=
  if n < 0x10000 then '\\' :: 'u' :: hex4 n
  else
    let m := n - 0x10000
    ('\\' :: 'u' :: hex4 (0xd800 + (m >>> 10))) ++ ('\\' :: 'u' :: hex4 (0xdc00 + (m &&& 0x3ff)))

def jsonEscapeChar (c : Char) : List Char :=
  if c = '"' then ['\\', '"']
  else if c = '\\' then ['\\', '\\']
  else if c = '\n' then ['\\', 'n']
  else if c = '\r' then ['\\', 'r']
  else if c = '\t' then ['\\', 't']
  else if c.toNat = 8 then ['\\', 'b']
  else if c.toNat = 12 then ['\\', 'f']
  else if c.toNat < 0x20 || 0x7e < c.toNat then jsonUniEscape c.toNat
  else [c]

def jsonStr (s : String) : String :=
  String.mk ('"' :: s.data.foldr (fun c acc => jsonEscapeChar c ++ acc) ['"'])

def jsonOptStr : Option String → String
  | none => "null"
  | some s => jsonStr s

/-! ## Manifest data model

`versions/tasks.py : create_cas_manifest` builds entries with keys
`path`, `hash`, `size`, `storage`, and either `blob_id` plus
`blob_hash` (CAS) or `content` (inline base64).  The declared hash
comes from `file_entry.get('hash')` and may be absent (`None`). -/

inductive EntryStorage where
  | cas (blobId : Nat) (blobHash : Option String)
  | inlined (content : String)
deriving DecidableEq

structure ManifestEntry where
  path : String
  hash : Option String
  size : Nat
  storage : EntryStorage
deriving DecidableEq

structure Manifest where
  files : List ManifestEntry
  createdAt : String
  casThresholdMb : Nat
deriving DecidableEq

/-- Projection taken by `compute_manifest_hash`: only `path`, `hash`
and `size` of each entry enter the hashed document. -/
structure HashTriple where
  path : String
  hash : Option String
  size : Nat
deriving DecidableEq

def charListLeb : List Char → List Char → Bool
  | [], _ => true
  | _ :: _, [] => false
  | a :: as, b :: bs =>
      if a.toNat < b.toNat then true
      else if b.toNat < a.toNat then false
      else charListLeb as bs

/-- Python compares strings lexicographically by Unicode code point;
this boolean mirrors the comparison used by `list.sort(key=path)`. -/
def strLeb (a b : String) : Bool := charListLeb a.data b.data

theorem charListLeb_total : ∀ as bs : List Char, charListLeb as bs = true ∨ charListLeb bs as = true
  | [], _ => Or.inl rfl
  | _ :: _, [] => Or.inr rfl
  | a :: as, b :: bs => by
    simp only [charListLeb]
    rcases Nat.lt_trichotomy a.toNat b.toNat with h | h | h
    · left
      simp [h]
    · have h1 : ¬ a.toNat < b.toNat := by omega
      have h2 : ¬ b.toNat < a.toNat := by omega
      simpa [h1, h2] using charListLeb_total as bs
    · right
      simp [h]

theorem charListLeb_trans :
    ∀ as bs cs : List Char, charListLeb as bs = true → charListLeb bs cs = true →
      charListLeb as cs = true
  | [], _, cs, _, _ => by cases cs <;> simp [charListLeb]
  | _ :: _, [], _, h1, _ => by simp [charListLeb] at h1
  | _ :: _, _ :: _, [], _, h2 => by simp [charListLeb] at h2
  | a :: as, b :: bs, c :: cs, h1, h2 => by
    simp only [charListLeb] at h1 h2 ⊢
    by_cases hab : a.toNat < b.toNat
    · by_cases hbc : b.toNat < c.toNat
      · simp [show a.toNat < c.toNat by omega]
      · by_cases hcb : c.toNat < b.toNat
        · rw [if_neg hbc, if_pos hcb] at h2
          exact absurd h2 (by simp)
        · simp [show a.toNat < c.toNat by omega]
    · by_cases hba : b.toNat < a.toNat
      · rw [if_neg hab, if_pos hba] at h1
        exact absurd h1 (by simp)
      · rw [if_neg hab, if_neg hba] at h1
        by_cases hbc : b.toNat < c.toNat
        · simp [show a.toNat < c.toNat by omega]
        · by_cases hcb : c.toNat < b.toNat
          · rw [if_neg hbc, if_pos hcb] at h2
            exact absurd h2 (by simp)
          · rw [if_neg hbc, if_neg hcb] at h2
            rw [if_neg (show ¬ a.toNat < c.toNat by omega),
                if_neg (show ¬ c.toNat < a.toNat by omega)]
            exact charListLeb_trans as bs cs h1 h2

theorem charListLeb_antisymm :
    ∀ as bs : List Char, charListLeb as bs = true → charListLeb bs as = true → as = bs
  | [], [], _, _ => rfl
  | [], _ :: _, _, h2 => by simp [charListLeb] at h2
  | _ :: _, [], h1, _ => by simp [charListLeb] at h1
  | a :: as, b :: bs, h1, h2 => by
    simp only [charListLeb] at h1 h2
    by_cases hab : a.toNat < b.toNat
    · rw [if_neg (show ¬ b.toNat < a.toNat by omega), if_pos hab] at h2
      exact absurd h2 (by simp)
    · by_cases hba : b.toNat < a.toNat
      · rw [if_neg hab, if_pos hba] at h1
        exact absurd h1 (by simp)
      · rw [if_neg hab, if_neg hba] at h1
        rw [if_neg hba, if_neg hab] at h2
        have hc : a = b := by
          have hn : a.toNat = b.toNat := by omega
          calc a = Char.ofNat a.toNat := (Char.ofNat_toNat a).symm
          _ = Char.ofNat b.toNat := by rw [hn]
          _ = b := Char.ofNat_toNat b
        rw [hc, charListLeb_antisymm as bs h1 h2]

theorem strLeb_antisymm (a b : String) (h1 : strLeb a b = true) (h2 : strLeb b a = true) :
    a = b := by
  cases a
  cases b
  exact congrArg String.mk (charListLeb_antisymm _ _ h1 h2)

def tripleLe (a b : HashTriple) : Prop := strLeb a.path b.path = true

instance : DecidableRel tripleLe := fun a b =>
  inferInstanceAs (Decidable (strLeb a.path b.path = true))

instance : IsTotal HashTriple tripleLe := ⟨fun a b => charListLeb_total a.path.data b.path.data⟩

instance : IsTrans HashTriple tripleLe :=
  ⟨fun a b c h₁ h₂ => charListLeb_trans a.path.data b.path.data c.path.data h₁ h₂⟩

def jsonTriple (t : HashTriple) : String :=
  "\x7b\"hash\": " ++ jsonOptStr t.hash ++ ", \"path\": " ++ jsonStr t.path ++
    ", \"size\": " ++ toString t.size ++ "\x7d"

def jsonTripleList (l : List HashTriple) : String :=
  "[" ++ String.intercalate (", ") (l.map jsonTriple) ++ "]"

def manifestTriples (m : Manifest) : List HashTriple :=
  m.files.map (fun f => ⟨f.path, f.hash, f.size⟩)

/-- Model of `compute_manifest_hash` (`versions/tasks.py` lines 40 to 54):
project each file entry to its `path`, `hash`, `size` dict, sort the
list by `path` (Python `list.sort` is stable), serialize with
`json.dumps(..., sort_keys=True)` and take the SHA-256 of the UTF-8
encoding. -/
def computeManifestHash (m : Manifest) : String :=
  sha256Hex (jsonTripleList (List.insertionSort tripleLe (manifestTriples m)))

/-! ## Properties of the stable sort underlying the manifest hash -/

theorem sorted_perm_nodup_paths_eq :
    ∀ l₁ l₂ : List HashTriple, l₁.Perm l₂ → l₁.Sorted tripleLe → l₂.Sorted tripleLe →
      (l₁.map HashTriple.path).Nodup → l₁ = l₂
  | [], l₂, hp, _, _, _ => (hp.nil_eq).symm ▸ rfl
  | a :: t₁, [], hp, _, _, _ => absurd hp.symm (by simp)
  | a :: t₁, b :: t₂, hp, hs₁, hs₂, hn => by
    rcases List.sorted_cons.mp hs₁ with ⟨ha₁, ht₁⟩
    rcases List.sorted_cons.mp hs₂ with ⟨hb₂, ht₂⟩
    rcases List.nodup_cons.mp hn with ⟨hpa, hnt⟩
    have hab : a = b := by
      by_contra hne
      have haminb : a ∈ b :: t₂ := hp.mem_iff.mp (List.mem_cons_self a t₁)
      have hbmina : b ∈ a :: t₁ := hp.mem_iff.mpr (List.mem_cons_self b t₂)
      have hat₂ : a ∈ t₂ := by
        rcases List.mem_cons.mp haminb with h | h
        · exact absurd h hne
        · exact h
      have hbt₁ : b ∈ t₁ := by
        rcases List.mem_cons.mp hbmina with h | h
        · exact absurd h.symm hne
        · exact h
      have h₁ : tripleLe a b := ha₁ b hbt₁
      have h₂ : tripleLe b a := hb₂ a hat₂
      have heq : a.path = b.path := strLeb_antisymm _ _ h₁ h₂
      exact hpa (heq ▸ List.mem_map_of_mem HashTriple.path hbt₁)
    subst hab
    have hpt : t₁.Perm t₂ := hp.cons_inv
    have := sorted_perm_nodup_paths_eq t₁ t₂ hpt ht₁ ht₂ hnt
    rw [this]

theorem insertionSort_eq_of_perm_of_nodup_paths (l₁ l₂ : List HashTriple)
    (hp : l₁.Perm l₂) (hn : (l₁.map HashTriple.path).Nodup) :
    List.insertionSort tripleLe l₁ = List.insertionSort tripleLe l₂ := by
  have hp' : (List.insertionSort tripleLe l₁).Perm (List.insertionSort tripleLe l₂) :=
    (List.perm_insertionSort tripleLe l₁).trans (hp.trans (List.perm_insertionSort tripleLe l₂).symm)
  have hn' : ((List.insertionSort tripleLe l₁).map HashTriple.path).Nodup :=
    (((List.perm_insertionSort tripleLe l₁).map HashTriple.path).nodup_iff).mpr hn
  exact sorted_perm_nodup_paths_eq _ _ hp'
    (List.sorted_insertionSort tripleLe l₁) (List.sorted_insertionSort tripleLe l₂) hn'

/-! ## C7: permutation invariance of the manifest hash -/

def c7DupA : ManifestEntry := ⟨"a", some "x", 1, .inlined "QQ=="⟩

def c7DupB : ManifestEntry := ⟨"a", some "y", 2, .inlined "Qg=="⟩

def c7DupM1 : Manifest := ⟨[c7DupA, c7DupB], "2024-01-01T00:00:00", 1⟩

def c7DupM2 : Manifest := ⟨[c7DupB, c7DupA], "2024-01-01T00:00:00", 1⟩

set_option maxRecDepth 1000000

/-- C7 counterexample: two manifests whose file entries are a
permutation of each other, with the same multiset of
(path, hash, size) triples, but with two entries sharing the path
"a".  Python `list.sort(key=path)` is stable, so the two orders
survive sorting and the serialized documents, hence the SHA-256
hashes, differ.  The claim that the manifest hash is invariant under
permutation of entries is therefore false as stated. -/
theorem c7_counterexample :
    (manifestTriples c7DupM1).Perm (manifestTriples c7DupM2) ∧
    computeManifestHash c7DupM1 ≠ computeManifestHash c7DupM2 :=
  ⟨List.Perm.swap _ _ _, by decide⟩

/-- C7 (amended): the manifest hash depends only on the multiset of
(path, hash, size) triples of the entries, provided the entry paths
are pairwise distinct.  Storage class, inline base64 content, blob id
and the created_at timestamp of the manifest never enter the hash
(they are absent from `manifestTriples`), so any two manifests whose
triple projections are permutations of each other, with no duplicated
path, receive equal hashes. -/
theorem c7_manifest_hash_depends_only_on_triples (m₁ m₂ : Manifest)
    (hperm : (manifestTriples m₁).Perm (manifestTriples m₂))
    (hnodup : ((manifestTriples m₁).map HashTriple.path).Nodup) :
    computeManifestHash m₁ = computeManifestHash m₂ := by
  unfold computeManifestHash
  rw [insertionSort_eq_of_perm_of_nodup_paths _ _ hperm hnodup]

def c7WitM1 : Manifest :=
  ⟨[⟨"kick.wav", some "h1", 1, .inlined "QQ=="⟩, ⟨"song.flp", some "h2", 2, .cas 7 (some "h2")⟩],
   "2024-01-01T00:00:00", 1⟩

def c7WitM2 : Manifest :=
  ⟨[⟨"song.flp", some "h2", 2, .inlined "Qg=="⟩, ⟨"kick.wav", some "h1", 1, .cas 9 (some "h1")⟩],
   "2025-06-30T12:00:00", 1⟩

/-- C7 witness: the amended theorem applied to two concrete manifests
that differ in entry order, storage class, blob ids, inline content
and timestamp but share the same triples with distinct paths. -/
theorem c7_witness :
    (manifestTriples c7WitM1).Perm (manifestTriples c7WitM2) ∧
    ((manifestTriples c7WitM1).map HashTriple.path).Nodup ∧
    computeManifestHash c7WitM1 = computeManifestHash c7WitM2 :=
  ⟨List.Perm.swap _ _ _, by decide,
    c7_manifest_hash_depends_only_on_triples c7WitM1 c7WitM2 (List.Perm.swap _ _ _) (by decide)⟩

/-! ## Core data model: versions, blobs, pushes

Shallow embedding of the Django models in `versions/models.py`.
`manifestFile` stands for the pair `manifest_file_path` plus the JSON
document saved at that path by `save_manifest_to_file`; it is `none`
while `manifest_file_path` is NULL or the file is missing, which is
exactly when `load_manifest_from_file` returns `None`.  The `file`
field of a snapshot version holds the archived tree (the walk of the
master directory that `create_snapshot_zip` wrote into the ZIP). -/

structure FileData where
  size : Nat
  content : List Nat
deriving DecidableEq

inductive VStatus where
  | pending
  | processing
  | completed
  | failed
deriving DecidableEq

structure ChangeEntry where
  path : String
  size : Nat
  hash : Option String
deriving DecidableEq

structure ModifiedEntry where
  path : String
  oldSize : Nat
  newSize : Nat
  sizeChange : Int
  oldHash : Option String
  newHash : Option String
deriving DecidableEq

structure ChangeDetails where
  addedFiles : List ChangeEntry
  modifiedFiles : List ModifiedEntry
  deletedFiles : List ChangeEntry
deriving DecidableEq

structure Version where
  uid : String
  projectId : Nat
  versionNumber : Option Nat := none
  status : VStatus := .pending
  isSnapshot : Bool := false
  file : Option (List (String × FileData)) := none
  manifestFile : Option Manifest := none
  hash : Option String := none
  createdAt : Nat := 0
  completedAt : Option Nat := none
  fileSize : Nat := 0
  fileCount : Nat := 0
  filesAdded : Nat := 0
  filesModified : Nat := 0
  filesDeleted : Nat := 0
  sizeChange : Int := 0
  changeDetails : ChangeDetails := ⟨[], [], []⟩
  previousVersionUid : Option String := none
deriving DecidableEq

/-- Model of `Version.load_manifest_from_file`: returns the saved
manifest document, or `None` when `manifest_file_path` is unset or the
file is absent. -/
def loadManifestFromFile (v : Version) : Option Manifest := v.manifestFile

/-! ## Python dicts keyed by path

`compare_with_previous_version` builds
`current_files = {f['path']: f for f in ...}`.  A Python dict keeps
the insertion position of the first occurrence of a key and the last
assigned value. -/

def pyDictInsert (d : List (String × ManifestEntry)) (k : String) (v : ManifestEntry) :
    List (String × ManifestEntry) :=
  if d.any (fun p => p.1 == k) then d.map (fun p => if p.1 == k then (k, v) else p)
  else d ++ [(k, v)]

def pyDictOfFiles (files : List ManifestEntry) : List (String × ManifestEntry) :=
  files.foldl (fun d f => pyDictInsert d f.path f) []

def pyDictGet (d : List (String × ManifestEntry)) (k : String) : Option ManifestEntry :=
  (d.find? (fun p => p.1 == k)).map Prod.snd

def pyDictMem (d : List (String × ManifestEntry)) (k : String) : Bool :=
  d.any (fun p => p.1 == k)

/-! ## Diff against the previous version

Model of `compare_with_previous_version` (`versions/tasks.py` lines 56
to 159). -/

structure AddModRes where
  na : Nat
  nm : Nat
  sc : Int
  la : List ChangeEntry
  lm : List ModifiedEntry

structure DelRes where
  nd : Nat
  sc : Int
  ld : List ChangeEntry

def diffAddMod : List (String × ManifestEntry) → List (String × ManifestEntry) → AddModRes
  | [], _ => ⟨0, 0, 0, [], []⟩
  | (p, cf) :: rest, prevD =>
    let r := diffAddMod rest prevD
    match pyDictGet prevD p with
    | none => ⟨r.na + 1, r.nm, r.sc + (cf.size : Int), ⟨p, cf.size, cf.hash⟩ :: r.la, r.lm⟩
    | some pf =>
      if cf.hash ≠ pf.hash then
        ⟨r.na, r.nm + 1, r.sc + ((cf.size : Int) - (pf.size : Int)), r.la,
         ⟨p, pf.size, cf.size, (cf.size : Int) - (pf.size : Int), pf.hash, cf.hash⟩ :: r.lm⟩
      else r

def diffDeleted : List (String × ManifestEntry) → List (String × ManifestEntry) → DelRes
  | [], _ => ⟨0, 0, []⟩
  | (p, pf) :: rest, curD =>
    let r := diffDeleted rest curD
    if pyDictMem curD p then r
    else ⟨r.nd + 1, r.sc - (pf.size : Int), ⟨p, pf.size, pf.hash⟩ :: r.ld⟩

structure DiffResult where
  filesAdded : Nat
  filesModified : Nat
  filesDeleted : Nat
  sizeChange : Int
  changeDetails : ChangeDetails
deriving DecidableEq

/-- Branch taken when there is no previous version or its manifest
cannot be loaded: every current file is reported as added, in list
order and without any truncation. -/
def initialDiff (current : Manifest) : DiffResult :=
  let files := current.files
  let totalSize : Nat := (files.map ManifestEntry.size).sum
  ⟨files.length, 0, 0, (totalSize : Int),
   ⟨files.map (fun f => ⟨f.path, f.size, f.hash⟩), [], []⟩⟩

def compareWithPreviousVersion (current : Manifest) (previousVersion : Option Version) :
    DiffResult :=
  match previousVersion with
  | none => initialDiff current
  | some pv =>
    match loadManifestFromFile pv with
    | none => initialDiff current
    | some prev =>
      let curD := pyDictOfFiles current.files
      let prevD := pyDictOfFiles prev.files
      let am := diffAddMod curD prevD
      let dl := diffDeleted prevD curD
      ⟨am.na, am.nm, dl.nd, am.sc + dl.sc, ⟨am.la, am.lm, dl.ld⟩⟩

/-- Spec-side predicate for C6: a bucket is ordered by path. -/
def pathsSorted : List String → Bool
  | a :: b :: rest => strLeb a b && pathsSorted (b :: rest)
  | _ => true

/-! ## C6: change-detail buckets -/

theorem diffAddMod_la_length :
    ∀ cur prevD, (diffAddMod cur prevD).la.length = (diffAddMod cur prevD).na
  | [], _ => rfl
  | (p, cf) :: rest, prevD => by
    have ih := diffAddMod_la_length rest prevD
    simp only [diffAddMod]
    cases pyDictGet prevD p with
    | none => simpa using ih
    | some pf =>
      by_cases h : cf.hash ≠ pf.hash
      · simpa [h] using ih
      · simpa [h] using ih

theorem diffAddMod_lm_length :
    ∀ cur prevD, (diffAddMod cur prevD).lm.length = (diffAddMod cur prevD).nm
  | [], _ => rfl
  | (p, cf) :: rest, prevD => by
    have ih := diffAddMod_lm_length rest prevD
    simp only [diffAddMod]
    cases pyDictGet prevD p with
    | none => simpa using ih
    | some pf =>
      by_cases h : cf.hash ≠ pf.hash
      · simpa [h] using ih
      · simpa [h] using ih

theorem diffDeleted_ld_length :
    ∀ prevD curD, (diffDeleted prevD curD).ld.length = (diffDeleted prevD curD).nd
  | [], _ => rfl
  | (p, pf) :: rest, curD => by
    have ih := diffDeleted_ld_length rest curD
    simp only [diffDeleted]
    by_cases h : pyDictMem curD p
    · simpa [h] using ih
    · simpa [h] using ih

def c6Cur : Manifest :=
  ⟨[⟨"b.wav", some "hb", 1, .inlined "QQ=="⟩, ⟨"a.wav", some "ha", 2, .inlined "Qg=="⟩],
   "2024-01-01T00:00:00", 1⟩

/-- C6 counterexample: a push whose manifest lists path "b.wav" before
"a.wav" and that has no previous version.  The added bucket of the
resulting change details keeps the manifest order ["b.wav", "a.wav"],
so the bucket is not ordered by path; the claimed conjunction
(at most 50 entries, ordered by path) fails at this input. -/
theorem c6_counterexample :
    ¬ (((compareWithPreviousVersion c6Cur none).changeDetails.addedFiles.length ≤ 50 ∧
        (compareWithPreviousVersion c6Cur none).changeDetails.modifiedFiles.length ≤ 50 ∧
        (compareWithPreviousVersion c6Cur none).changeDetails.deletedFiles.length ≤ 50) ∧
       pathsSorted ((compareWithPreviousVersion c6Cur none).changeDetails.addedFiles.map
         ChangeEntry.path) = true) := by
  decide

/-- C6 (amended): the change-detail buckets are never truncated and
carry no truncated marker: each bucket holds exactly one entry per
detected change, so its length equals the corresponding counter
(`files_added`, `files_modified`, `files_deleted`) even beyond 50, and
entries appear in manifest iteration order rather than sorted by
path. -/
theorem c6_change_details_untruncated (current : Manifest) (previousVersion : Option Version) :
    (compareWithPreviousVersion current previousVersion).changeDetails.addedFiles.length =
      (compareWithPreviousVersion current previousVersion).filesAdded ∧
    (compareWithPreviousVersion current previousVersion).changeDetails.modifiedFiles.length =
      (compareWithPreviousVersion current previousVersion).filesModified ∧
    (compareWithPreviousVersion current previousVersion).changeDetails.deletedFiles.length =
      (compareWithPreviousVersion current previousVersion).filesDeleted := by
  cases previousVersion with
  | none => simp [compareWithPreviousVersion, initialDiff]
  | some pv =>
    cases hm : loadManifestFromFile pv with
    | none => simp [compareWithPreviousVersion, hm, initialDiff]
    | some prev =>
      simp [compareWithPreviousVersion, hm, diffAddMod_la_length, diffAddMod_lm_length,
        diffDeleted_ld_length]

/-! ## Text sanitization

Model of `sanitize_text` (`versions/models.py`): strips characters
with code point below 32 except newline, carriage return and tab; the
empty string is returned unchanged. -/

def sanitizeText (s : String) : String :=
  if s = "" then s
  else String.mk (s.data.filter (fun c => decide (32 ≤ c.toNat) || c == '\n' || c == '\r' || c == '\t'))

/-! ## Base64 of file contents

Model of `base64.b64encode(f.read()).decode('utf-8')` used for inline
manifest entries. -/

def base64Char (n : Nat) : Char :=
  if n < 26 then Char.ofNat (65 + n)
  else if n < 52 then Char.ofNat (97 + (n - 26))
  else if n < 62 then Char.ofNat (48 + (n - 52))
  else if n = 62 then '+'
  else '/'

def base64Chunks : List Nat → List Char
  | [] => []
  | [a] => [base64Char (a >>> 2), base64Char ((a &&& 3) <<< 4), '=', '=']
  | [a, b] => [base64Char (a >>> 2), base64Char (((a &&& 3) <<< 4) ||| (b >>> 4)),
               base64Char ((b &&& 15) <<< 2), '=']
  | a :: b :: c :: rest =>
      base64Char (a >>> 2) :: base64Char (((a &&& 3) <<< 4) ||| (b >>> 4)) ::
        base64Char (((b &&& 15) <<< 2) ||| (c >>> 6)) :: base64Char (c &&& 63) ::
        base64Chunks rest

def base64Encode (bs : List Nat) : String := String.mk (base64Chunks bs)

/-! ## CAS blob store

Model of `FileBlob` (`versions/models.py`).  `ref_count` is a Django
`IntegerField`, hence `Int`.  `increment_ref` and `decrement_ref`
update the row with the given primary key; `decrement_ref` deletes the
row when the count drops to zero or below. -/

structure Blob where
  id : Nat
  hash : Option String
  size : Nat
  content : List Nat
  refCount : Int
deriving DecidableEq

structure BlobStore where
  blobs : List Blob
  nextId : Nat
deriving DecidableEq

def bumpBlobs (l : List Blob) (bid : Nat) : List Blob :=
  l.map (fun b => if b.id = bid then { b with refCount := b.refCount + 1 } else b)

def incrementRef (st : BlobStore) (bid : Nat) : BlobStore :=
  { st with blobs := bumpBlobs st.blobs bid }

def decrementRef (st : BlobStore) (bid : Nat) : BlobStore :=
  let dropped := st.blobs.map
    (fun b => if b.id = bid then { b with refCount := b.refCount - 1 } else b)
  { st with blobs := dropped.filter (fun b => !decide (b.id = bid ∧ b.refCount ≤ 0)) }

/-- Model of `get_or_create_blob` (`versions/tasks.py` lines 186 to
203): look the blob up by hash; if absent, create it with the declared
hash, the on-disk size and content, and `ref_count=0`.  No comparison
of the declared hash with the content ever happens.  The exception
fallback of the caller (inline storage when saving the blob raises) is
an I/O failure path outside this model. -/
def getOrCreateBlob (st : BlobStore) (fd : FileData) (fileHash : Option String) :
    Blob × BlobStore :=
  match st.blobs.find? (fun b => b.hash == fileHash) with
  | some b => (b, st)
  | none =>
    let b : Blob := ⟨st.nextId, fileHash, fd.size, fd.content, 0⟩
    (b, ⟨st.blobs ++ [b], st.nextId + 1⟩)

def refCountBlobs (l : List Blob) (h : Option String) : Int :=
  match l.find? (fun b => b.hash == h) with
  | some b => b.refCount
  | none => 0

/-- Reference count recorded for the blob with the given hash, zero
when no such blob exists. -/
def refCountOf (st : BlobStore) (h : Option String) : Int := refCountBlobs st.blobs h

def StoreWF (st : BlobStore) : Prop :=
  (∀ b ∈ st.blobs, b.id < st.nextId) ∧ (st.blobs.map Blob.id).Nodup

instance (st : BlobStore) : Decidable (StoreWF st) :=
  inferInstanceAs (Decidable ((∀ b ∈ st.blobs, b.id < st.nextId) ∧ (st.blobs.map Blob.id).Nodup))

/-! ## Manifest construction

Model of `create_cas_manifest` (`versions/tasks.py` lines 205 to 262).
Entries lacking a `relative_path` (or with an empty one) and entries
whose file is absent from the master directory are skipped without any
error.  Files strictly larger than `CAS_SIZE_THRESHOLD` go to CAS and
`blob.increment_ref()` runs once per entry; smaller files are inlined
base64. -/

def CAS_SIZE_THRESHOLD : Nat := 1 * 1024 * 1024

def SNAPSHOT_INTERVAL : Nat := 10

structure FileEntryIn where
  relativePath : Option String := none
  hash : Option String := none
  localPath : Option String := none
deriving DecidableEq

structure CasAcc where
  entries : List ManifestEntry
  totalSize : Nat
  casCount : Nat
  inlineCount : Nat
  store : BlobStore
deriving DecidableEq

def createCasAux : List FileEntryIn → List (String × FileData) → BlobStore → CasAcc
  | [], _, st => ⟨[], 0, 0, 0, st⟩
  | e :: rest, fs, st =>
    match e.relativePath with
    | none => createCasAux rest fs st
    | some p =>
      if p = "" then createCasAux rest fs st
      else
        match fs.lookup p with
        | none => createCasAux rest fs st
        | some fd =>
          if CAS_SIZE_THRESHOLD < fd.size then
            let bs := getOrCreateBlob st fd e.hash
            let st2 := incrementRef bs.2 bs.1.id
            let r := createCasAux rest fs st2
            ⟨⟨p, e.hash, fd.size, .cas bs.1.id bs.1.hash⟩ :: r.entries, fd.size + r.totalSize,
             r.casCount + 1, r.inlineCount, r.store⟩
          else
            let r := createCasAux rest fs st
            ⟨⟨p, e.hash, fd.size, .inlined (base64Encode fd.content)⟩ :: r.entries,
             fd.size + r.totalSize, r.casCount, r.inlineCount + 1, r.store⟩

structure CasResult where
  manifest : Manifest
  totalSize : Nat
  casCount : Nat
  inlineCount : Nat
  store : BlobStore
deriving DecidableEq

def createCasManifest (fileList : List FileEntryIn) (fs : List (String × FileData))
    (st : BlobStore) (nowIso : String) : CasResult :=
  let r := createCasAux fileList fs st
  ⟨⟨r.entries, nowIso, 1⟩, r.totalSize, r.casCount, r.inlineCount, r.store⟩

/-- Number of file-list entries that take the CAS branch for the given
declared hash: present on disk, strictly above the threshold, and
declaring hash `h`. -/
def casEntryCount (fileList : List FileEntryIn) (fs : List (String × FileData))
    (h : Option String) : Nat :=
  (fileList.filter (fun e =>
    match e.relativePath with
    | none => false
    | some p =>
      !(p == "") &&
        (match fs.lookup p with
         | none => false
         | some fd => decide (CAS_SIZE_THRESHOLD < fd.size) && (e.hash == h)))).length

/-! ## Pushes and the commit phase of the worker -/

inductive PushStatus where
  | pending
  | awaitingApproval
  | approved
  | processing
  | done
  | failed
  | rejected
  | cancelled
deriving DecidableEq

structure PendingPush where
  uid : String
  projectId : Nat
  status : PushStatus := .pending
  progress : Nat := 0
  message : Option String := none
  completedAt : Option Nat := none
  versionUid : Option String := none
  errorDetails : Option String := none
deriving DecidableEq

/-- Model of the `version_pre_delete` signal (`versions/models.py`
lines 380 to 416): blob references are decremented only from the
manifest loaded from the version's saved manifest file; when
`manifest_file_path` was never set (`load_manifest_from_file` returns
`None`, as for a placeholder version) nothing is decremented.  Each
distinct truthy `blob_id` among the cas entries is decremented once. -/
def casBlobIds (m : Manifest) : List Nat :=
  (m.files.filterMap (fun f =>
    match f.storage with
    | .cas bid _ => if bid = 0 then none else some bid
    | .inlined _ => none)).dedup

def versionPreDelete (v : Version) (st : BlobStore) : BlobStore :=
  match loadManifestFromFile v with
  | none => st
  | some m => (casBlobIds m).foldl decrementRef st

/-- Deleting a version row: the `pre_delete` signal runs, then the row
disappears. -/
def deleteVersionRow (v : Version) (versions : List Version) (st : BlobStore) :
    List Version × BlobStore :=
  (versions.filter (fun w => !(w.uid == v.uid)), versionPreDelete v st)

/-- Django querysets on `Version` carry the default ordering
`-created_at`; `.first()` therefore returns a row maximizing
`created_at` (ties broken arbitrarily by the database; the model keeps
the earliest listed). -/
def firstByLatestCreated (versions : List Version) (pred : Version → Bool) : Option Version :=
  (versions.filter pred).foldl
    (fun acc v =>
      match acc with
      | none => some v
      | some b => if b.createdAt < v.createdAt then some v else some b) none

def isPrevCandidate (projectId : Nat) (excludeUid : String) (v : Version) : Bool :=
  decide (v.projectId = projectId ∧ v.status = VStatus.completed ∧ v.uid ≠ excludeUid)

def shouldCreateSnapshot (versionNumber : Nat) : Bool :=
  versionNumber % SNAPSHOT_INTERVAL == 0

/-- Duplicate detection (`versions/tasks.py` lines 448 to 452): first
completed version of the project with the same manifest hash, the
placeholder excluded. -/
def dupLookup (versions : List Version) (projectId : Nat) (mh : String) (excludeUid : String) :
    Option Version :=
  firstByLatestCreated versions (fun v =>
    decide (v.projectId = projectId ∧ v.hash = some mh ∧ v.status = VStatus.completed ∧
      v.uid ≠ excludeUid))

/-- ZIP archive size.  `create_snapshot_zip` reports the byte size of
the compressed archive; compression is outside the model, so the size
is abstracted as the total size of the archived files.  No claim
constrains this value. -/
def zipSizeOf (fs : List (String × FileData)) : Nat :=
  (fs.map (fun p => p.2.size)).sum

def versionNumberStr (v : Version) : String :=
  match v.versionNumber with
  | some n => toString n
  | none => "None"

inductive PushOutcome where
  | mapped (existingUid : String)
  | created (versionUid : String)
deriving DecidableEq

structure CommitResult where
  push : PendingPush
  versions : List Version
  store : BlobStore
  outcome : PushOutcome
deriving DecidableEq

/-- Model of the commit phase of `process_pending_push_new`
(`versions/tasks.py` lines 427 to 536), starting after the master
directory has been reconciled: previous-version lookup, version
numbering, manifest construction, duplicate detection, diff, storage
branch and completion.  `fs` is the reconciled master directory;
`now`/`nowIso` model `timezone.now()`.  Progress messages are
abbreviated relative to the source text; no claim inspects them. -/
def commitPush (fileList : List FileEntryIn) (fs : List (String × FileData))
    (push : PendingPush) (versionObj : Version) (versions : List Version)
    (st : BlobStore) (now : Nat) (nowIso : String) : CommitResult :=
  let projectId := push.projectId
  let previousVersion := firstByLatestCreated versions (isPrevCandidate projectId versionObj.uid)
  let completedCount := (versions.filter (isPrevCandidate projectId versionObj.uid)).length
  let newVersionNumber := completedCount + 1
  let snap := shouldCreateSnapshot newVersionNumber
  let cas := createCasManifest fileList fs st nowIso
  let manifestHash := computeManifestHash cas.manifest
  match dupLookup versions projectId manifestHash versionObj.uid with
  | some existing =>
    let push1 : PendingPush :=
      { push with
        versionUid := some existing.uid
        status := .done
        completedAt := some now
        progress := 100
        message := some (sanitizeText ("Mapped to existing v" ++ versionNumberStr existing)) }
    if existing.uid ≠ versionObj.uid then
      let del := deleteVersionRow versionObj versions cas.store
      ⟨push1, del.1, del.2, .mapped existing.uid⟩
    else
      ⟨push1, versions, cas.store, .mapped existing.uid⟩
  | none =>
    let d := compareWithPreviousVersion cas.manifest previousVersion
    let v1 : Version :=
      { versionObj with
        isSnapshot := snap
        hash := some manifestHash
        fileCount := fileList.length
        fileSize := cas.totalSize
        createdAt := now
        previousVersionUid := previousVersion.map Version.uid
        filesAdded := d.filesAdded
        filesModified := d.filesModified
        filesDeleted := d.filesDeleted
        sizeChange := d.sizeChange
        changeDetails := d.changeDetails
        versionNumber := some newVersionNumber }
    let v2 : Version :=
      if snap then
        { v1 with file := some fs, fileSize := zipSizeOf fs, manifestFile := none }
      else
        { v1 with file := none, manifestFile := some cas.manifest }
    let v3 : Version := { v2 with status := .completed, completedAt := some now }
    let versions1 := versions.map (fun w => if w.uid == versionObj.uid then v3 else w)
    let push1 : PendingPush :=
      { push with
        status := .done
        completedAt := some now
        progress := 100
        message := some (sanitizeText ("v" ++ toString newVersionNumber ++ " created")) }
    ⟨push1, versions1, cas.store, .created versionObj.uid⟩

/-! ## Failure handling

Model of the `except` handler of `process_pending_push_new`
(`versions/tasks.py` lines 540 to 552) together with
`PendingPush.mark_failed` (`versions/models.py` lines 657 to 671) and
`Version.mark_failed`.  `mark_failed` already marks the linked version
failed; the handler calls `push.version.mark_failed()` once more,
which is idempotent on the model state.  No code path on failure
touches the blob store. -/

def markVersionFailed (v : Version) (now : Nat) : Version :=
  { v with status := .failed, completedAt := some now }

def markPushFailed (p : PendingPush) (errMsg : String) (now : Nat) : PendingPush :=
  { p with
    status := .failed
    progress := 100
    completedAt := some now
    errorDetails := if errMsg = "" then p.errorDetails else some (sanitizeText errMsg) }

def handlePushFailure (p : PendingPush) (versions : List Version) (errMsg : String) (now : Nat) :
    PendingPush × List Version :=
  let p1 := markPushFailed p errMsg now
  match p1.versionUid with
  | none => (p1, versions)
  | some u => (p1, versions.map (fun v => if v.uid == u then markVersionFailed v now else v))

/-- A worker run that fails after the manifest (and its blob
acquisitions) has been built: `create_cas_manifest` has already
executed when the exception reaches the handler, which updates only
push and version rows. -/
def runManifestThenFail (fileList : List FileEntryIn) (fs : List (String × FileData))
    (push : PendingPush) (versions : List Version) (st : BlobStore)
    (errMsg : String) (now : Nat) (nowIso : String) :
    PendingPush × List Version × BlobStore :=
  let cas := createCasManifest fileList fs st nowIso
  let hf := handlePushFailure push versions errMsg now
  (hf.1, hf.2, cas.store)

/-! ## Reference-count accounting for manifest construction -/

theorem refCountBlobs_cons (x : Blob) (xs : List Blob) (h : Option String) :
    refCountBlobs (x :: xs) h = if x.hash == h then x.refCount else refCountBlobs xs h := by
  cases hx : x.hash == h
  · simp [refCountBlobs, List.find?_cons, hx]
  · simp [refCountBlobs, List.find?_cons, hx]

theorem bumpBlobs_id_map (l : List Blob) (bid : Nat) :
    (bumpBlobs l bid).map Blob.id = l.map Blob.id := by
  induction l with
  | nil => rfl
  | cons x xs ih =>
    by_cases hid : x.id = bid <;> simp [bumpBlobs, hid] <;> simpa [bumpBlobs] using ih

theorem refCountBlobs_bump (l : List Blob) (bid : Nat) (h : Option String) :
    refCountBlobs (bumpBlobs l bid) h =
      refCountBlobs l h +
        (match l.find? (fun b => b.hash == h) with
         | some b => if b.id = bid then (1 : Int) else 0
         | none => 0) := by
  induction l with
  | nil => rfl
  | cons x xs ih =>
    have hb : bumpBlobs (x :: xs) bid =
        (if x.id = bid then { x with refCount := x.refCount + 1 } else x) :: bumpBlobs xs bid :=
      rfl
    have hhead : (if x.id = bid then { x with refCount := x.refCount + 1 } else x).hash = x.hash := by
      by_cases hid : x.id = bid <;> simp [hid]
    rw [hb, refCountBlobs_cons, refCountBlobs_cons, hhead, List.find?_cons]
    cases hx : x.hash == h
    · simpa [hx] using ih
    · simp only [hx, if_true]
      by_cases hid : x.id = bid <;> simp [hid]

theorem bumpBlobs_mem_lt (l : List Blob) (bid n : Nat) (hb : ∀ b ∈ l, b.id < n) :
    ∀ b ∈ bumpBlobs l bid, b.id < n := by
  intro b hmem
  rcases List.mem_map.mp hmem with ⟨a, ha, rfl⟩
  have hida : (if a.id = bid then { a with refCount := a.refCount + 1 } else a).id = a.id := by
    by_cases hid : a.id = bid <;> simp [hid]
  rw [hida]
  exact hb a ha

theorem storeWF_acquire (st : BlobStore) (fd : FileData) (fh : Option String)
    (hwf : StoreWF st) :
    StoreWF (incrementRef (getOrCreateBlob st fd fh).2 (getOrCreateBlob st fd fh).1.id) := by
  rcases hwf with ⟨hbound, hnodup⟩
  cases hfind : st.blobs.find? (fun b => b.hash == fh) with
  | some b =>
    simp only [getOrCreateBlob, hfind, incrementRef]
    exact ⟨bumpBlobs_mem_lt _ _ _ hbound, by rw [bumpBlobs_id_map]; exact hnodup⟩
  | none =>
    simp only [getOrCreateBlob, hfind, incrementRef]
    constructor
    · apply bumpBlobs_mem_lt
      intro b hmem
      rcases List.mem_append.mp hmem with hmem | hmem
      · exact Nat.lt_succ_of_lt (hbound b hmem)
      · simp only [List.mem_singleton] at hmem
        subst hmem
        exact Nat.lt_succ_self _
    · rw [bumpBlobs_id_map, List.map_append]
      simp only [List.map_cons, List.map_nil]
      rw [List.nodup_append]
      refine ⟨hnodup, List.nodup_singleton _, ?_⟩
      intro x hx
      rcases List.mem_map.mp hx with ⟨a, ha, rfl⟩
      simp only [List.mem_singleton]
      intro hxe
      have := hbound a ha
      omega

theorem acquire_refCount (st : BlobStore) (fd : FileData) (fh h : Option String)
    (hwf : StoreWF st) :
    refCountOf (incrementRef (getOrCreateBlob st fd fh).2 (getOrCreateBlob st fd fh).1.id) h =
      refCountOf st h + (if fh = h then (1 : Int) else 0) := by
  rcases hwf with ⟨hbound, hnodup⟩
  cases hfind : st.blobs.find? (fun b => b.hash == fh) with
  | some b =>
    have hb_hash : b.hash = fh := by simpa using List.find?_some hfind
    have hbmem : b ∈ st.blobs := List.mem_of_find?_eq_some hfind
    simp only [getOrCreateBlob, hfind, incrementRef, refCountOf]
    rw [refCountBlobs_bump]
    by_cases hfh : fh = h
    · subst hfh
      simp [hfind]
    · cases hfindh : st.blobs.find? (fun x => x.hash == h) with
      | none => simp [hfindh, hfh]
      | some c =>
        have hc_hash : c.hash = h := by simpa using List.find?_some hfindh
        have hcmem : c ∈ st.blobs := List.mem_of_find?_eq_some hfindh
        have hcb : c ≠ b := by
          intro hcb
          exact hfh (by rw [← hb_hash, ← hcb, hc_hash])
        have hidne : c.id ≠ b.id := fun hid =>
          hcb (List.inj_on_of_nodup_map hnodup hcmem hbmem hid)
        simp [hfindh, hidne, hfh]
  | none =>
    simp only [getOrCreateBlob, hfind, incrementRef, refCountOf]
    rw [refCountBlobs_bump]
    by_cases hfh : fh = h
    · subst hfh
      have hfd : (st.blobs ++ [(⟨st.nextId, fh, fd.size, fd.content, 0⟩ : Blob)]).find?
          (fun b => b.hash == fh) = some ⟨st.nextId, fh, fd.size, fd.content, 0⟩ := by
        rw [List.find?_append, hfind]
        simp [List.find?]
      simp only [refCountBlobs, hfd, hfind]
    · have hnbf : (((⟨st.nextId, fh, fd.size, fd.content, 0⟩ : Blob).hash == h)) = false := by
        simpa using hfh
      have hfd : (st.blobs ++ [(⟨st.nextId, fh, fd.size, fd.content, 0⟩ : Blob)]).find?
          (fun b => b.hash == h) = st.blobs.find? (fun b => b.hash == h) := by
        rw [List.find?_append]
        cases hfindh : st.blobs.find? (fun b => b.hash == h) <;>
          simp [List.find?, hnbf, hfindh]
      simp only [refCountBlobs, hfd]
      cases hfindh : st.blobs.find? (fun b => b.hash == h) with
      | none => simp [hfh]
      | some c =>
        have hcmem : c ∈ st.blobs := List.mem_of_find?_eq_some hfindh
        have hcid : c.id ≠ st.nextId := Nat.ne_of_lt (hbound c hcmem)
        simp [hcid, hfh]

theorem createCasAux_storeWF :
    ∀ (fl : List FileEntryIn) (fs : List (String × FileData)) (st : BlobStore),
      StoreWF st → StoreWF (createCasAux fl fs st).store
  | [], _, _, hwf => hwf
  | e :: rest, fs, st, hwf => by
    obtain ⟨rp, eh, lp⟩ := e
    cases rp with
    | none => exact createCasAux_storeWF rest fs st hwf
    | some p =>
      by_cases hp : p = ""
      · simpa [createCasAux, hp] using createCasAux_storeWF rest fs st hwf
      · cases hlk : fs.lookup p with
        | none => simpa [createCasAux, hp, hlk] using createCasAux_storeWF rest fs st hwf
        | some fd =>
          by_cases hsz : CAS_SIZE_THRESHOLD < fd.size
          · simpa [createCasAux, hp, hlk, hsz] using
              createCasAux_storeWF rest fs _ (storeWF_acquire st fd eh hwf)
          · simpa [createCasAux, hp, hlk, hsz] using createCasAux_storeWF rest fs st hwf

theorem createCasAux_refCount :
    ∀ (fl : List FileEntryIn) (fs : List (String × FileData)) (st : BlobStore)
      (h : Option String), StoreWF st →
      refCountOf (createCasAux fl fs st).store h =
        refCountOf st h + (casEntryCount fl fs h : Int)
  | [], _, st, h, _ => by simp [createCasAux, casEntryCount]
  | e :: rest, fs, st, h, hwf => by
    obtain ⟨rp, eh, lp⟩ := e
    cases rp with
    | none =>
      have ih := createCasAux_refCount rest fs st h hwf
      simpa [createCasAux, casEntryCount, List.filter_cons] using ih
    | some p =>
      by_cases hp : p = ""
      · have ih := createCasAux_refCount rest fs st h hwf
        simpa [createCasAux, casEntryCount, List.filter_cons, hp] using ih
      · cases hlk : fs.lookup p with
        | none =>
          have ih := createCasAux_refCount rest fs st h hwf
          simpa [createCasAux, casEntryCount, List.filter_cons, hp, hlk] using ih
        | some fd =>
          by_cases hsz : CAS_SIZE_THRESHOLD < fd.size
          · have ih := createCasAux_refCount rest fs
              (incrementRef (getOrCreateBlob st fd eh).2 (getOrCreateBlob st fd eh).1.id) h
              (storeWF_acquire st fd eh hwf)
            have hacq := acquire_refCount st fd eh h hwf
            by_cases heh : eh = h
            · subst heh
              simp only [createCasAux, casEntryCount, List.filter_cons, hp, hlk, hsz] at ih ⊢
              simp [ih, hacq, hp, hlk, hsz]
              omega
            · simp only [createCasAux, casEntryCount, List.filter_cons, hp, hlk, hsz] at ih ⊢
              simp [ih, hacq, heh, hp, hlk, hsz]
          · have ih := createCasAux_refCount rest fs st h hwf
            simpa [createCasAux, casEntryCount, List.filter_cons, hp, hlk, hsz] using ih

/-! ## C5: blob acquisition is not idempotent per (blob, version) -/

/-- A version's saved manifest contains a cas entry for the given blob
id. -/
def versionCasReferences (v : Version) (bid : Nat) : Bool :=
  match v.manifestFile with
  | none => false
  | some m =>
    m.files.any (fun f =>
      match f.storage with
      | .cas b _ => b == bid
      | .inlined _ => false)

def c5FileList : List FileEntryIn :=
  [⟨some "a.bin", some "aa", none⟩, ⟨some "b.bin", some "aa", none⟩]

def c5Fs : List (String × FileData) :=
  [("a.bin", ⟨2097152, []⟩), ("b.bin", ⟨2097152, []⟩)]

def c5Ver : Version := { uid := "v5", projectId := 0, status := .processing }

def c5Push : PendingPush :=
  { uid := "p5", projectId := 0, status := .processing, versionUid := some "v5" }

def c5Run : CommitResult :=
  commitPush c5FileList c5Fs c5Push c5Ver [c5Ver] ⟨[], 1⟩ 7 "2024-01-01T00:00:00"

/-- C5 counterexample: one push whose file list references the same
2 MiB content (declared hash "aa") under two distinct paths.  The
completed version's manifest holds two cas entries for blob 1, and
`blob.increment_ref()` ran once per entry, so the single completed
version contributes 2 to the blob's ref_count: the count is 2 while
exactly one completed version references the blob, refuting both the
claimed idempotence and the claimed ref_count invariant. -/
theorem c5_counterexample :
    c5Run.outcome = PushOutcome.created "v5" ∧
    refCountOf c5Run.store (some "aa") = 2 ∧
    (c5Run.versions.filter (fun v =>
      decide (v.status = VStatus.completed ∧ versionCasReferences v 1 = true))).length = 1 := by
  decide

/-- C5 (amended): blob reference acquisition is per manifest entry,
not idempotent per (blob, version): building a manifest raises each
blob's ref_count by the number of cas entries declaring its hash
(entries present on disk and strictly above the CAS threshold), so a
version referencing one blob from k distinct paths adds k, and
ref_count does not in general equal the number of completed versions
whose manifest references the blob. -/
theorem c5_refcount_counts_entries (fileList : List FileEntryIn)
    (fs : List (String × FileData)) (st : BlobStore) (h : Option String) (nowIso : String)
    (hwf : StoreWF st) :
    refCountOf (createCasManifest fileList fs st nowIso).store h =
      refCountOf st h + (casEntryCount fileList fs h : Int) := by
  simpa [createCasManifest] using createCasAux_refCount fileList fs st h hwf

/-- C5 witness: the amended theorem applied to the two-path scenario,
where the blob's count rises from 0 to 2. -/
theorem c5_witness :
    StoreWF ⟨[], 1⟩ ∧
    refCountOf (createCasManifest c5FileList c5Fs ⟨[], 1⟩ "t").store (some "aa") =
      refCountOf (⟨[], 1⟩ : BlobStore) (some "aa") +
        (casEntryCount c5FileList c5Fs (some "aa") : Int) :=
  ⟨⟨fun b hb => absurd hb (List.not_mem_nil b), List.nodup_nil⟩,
   c5_refcount_counts_entries c5FileList c5Fs ⟨[], 1⟩ (some "aa") "t"
     ⟨fun b hb => absurd hb (List.not_mem_nil b), List.nodup_nil⟩⟩

/-! ## C1: duplicate pushes leak the transient blob acquisitions -/

def c1FileList : List FileEntryIn := [⟨some "big.bin", some "aa", none⟩]

def c1Fs : List (String × FileData) := [("big.bin", ⟨2097152, []⟩)]

def c1Ver1 : Version := { uid := "u1", projectId := 0, status := .processing }

def c1Push1 : PendingPush :=
  { uid := "p1", projectId := 0, status := .processing, versionUid := some "u1" }

def c1Run1 : CommitResult :=
  commitPush c1FileList c1Fs c1Push1 c1Ver1 [c1Ver1] ⟨[], 1⟩ 1 "2024-01-01T00:00:00"

def c1Ver2 : Version := { uid := "u2", projectId := 0, status := .processing }

def c1Push2 : PendingPush :=
  { uid := "p2", projectId := 0, status := .processing, versionUid := some "u2" }

def c1Run2 : CommitResult :=
  commitPush c1FileList c1Fs c1Push2 c1Ver2 (c1Run1.versions ++ [c1Ver2]) c1Run1.store 2
    "2024-01-02T00:00:00"

/-- C1 counterexample: pushing the same single 2 MiB file twice.  The
first push completes version "u1" and leaves the blob at ref_count 1.
The second push is detected as a duplicate, reaches done pointing at
"u1", its placeholder "u2" is deleted and no second completed version
exists — but the blob's ref_count is 2 afterwards, not 1: the
acquisition made while building the duplicate's manifest was never
released, because the deleted placeholder has no saved manifest file
for the `pre_delete` signal to decrement from. -/
theorem c1_counterexample :
    c1Run1.outcome = PushOutcome.created "u1" ∧
    refCountOf c1Run1.store (some "aa") = 1 ∧
    c1Run2.outcome = PushOutcome.mapped "u1" ∧
    c1Run2.push.status = PushStatus.done ∧
    c1Run2.push.versionUid = some "u1" ∧
    c1Run2.versions.map Version.uid = ["u1"] ∧
    (c1Run2.versions.filter (fun v => decide (v.status = VStatus.completed))).length = 1 ∧
    refCountOf c1Run2.store (some "aa") = 2 := by
  decide

/-- C1 (amended): when a second push of the same file list finds a
completed duplicate, the push reaches done with its version reference
pointing at the duplicate and the placeholder row is deleted, exactly
as claimed — but the blob store is left at its post-acquisition state:
since the placeholder has no saved manifest file, its deletion
decrements nothing, and every blob's ref_count exceeds its value
before the second push by the number of cas entries declaring its
hash. -/
theorem c1_duplicate_push_keeps_acquisitions (fileList : List FileEntryIn)
    (fs : List (String × FileData)) (push : PendingPush) (versionObj : Version)
    (versions : List Version) (st : BlobStore) (now : Nat) (nowIso : String) (ex : Version)
    (hdup : dupLookup versions push.projectId
      (computeManifestHash (createCasManifest fileList fs st nowIso).manifest)
      versionObj.uid = some ex)
    (hne : ex.uid ≠ versionObj.uid)
    (hpl : versionObj.manifestFile = none)
    (hwf : StoreWF st) :
    (commitPush fileList fs push versionObj versions st now nowIso).outcome =
        PushOutcome.mapped ex.uid ∧
    (commitPush fileList fs push versionObj versions st now nowIso).push.status =
        PushStatus.done ∧
    (commitPush fileList fs push versionObj versions st now nowIso).push.versionUid =
        some ex.uid ∧
    (commitPush fileList fs push versionObj versions st now nowIso).versions =
        versions.filter (fun w => !(w.uid == versionObj.uid)) ∧
    (commitPush fileList fs push versionObj versions st now nowIso).store =
        (createCasManifest fileList fs st nowIso).store ∧
    (∀ h, refCountOf (commitPush fileList fs push versionObj versions st now nowIso).store h =
        refCountOf st h + (casEntryCount fileList fs h : Int)) := by
  have hstore :
      (commitPush fileList fs push versionObj versions st now nowIso).store =
        (createCasManifest fileList fs st nowIso).store := by
    simp [commitPush, hdup, hne, deleteVersionRow, versionPreDelete, loadManifestFromFile, hpl]
  refine ⟨?_, ?_, ?_, ?_, hstore, ?_⟩
  · simp [commitPush, hdup, hne]
  · simp [commitPush, hdup, hne]
  · simp [commitPush, hdup, hne]
  · simp [commitPush, hdup, hne, deleteVersionRow]
  · intro h
    rw [hstore]
    simpa [createCasManifest] using createCasAux_refCount fileList fs st h hwf

def c1WitHash : String :=
  computeManifestHash (createCasManifest [] [] ⟨[], 1⟩ "t").manifest

def c1WitV1 : Version :=
  { uid := "w1", projectId := 0, status := .completed, hash := some c1WitHash, createdAt := 5 }

def c1WitPl : Version := { uid := "w2", projectId := 0, status := .processing }

def c1WitPush : PendingPush :=
  { uid := "wp", projectId := 0, status := .processing, versionUid := some "w2" }

/-- C1 witness: the amended theorem applied to a project that already
holds a completed version of an empty file list, when the same empty
list is pushed again. -/
theorem c1_witness :
    dupLookup [c1WitV1, c1WitPl] c1WitPush.projectId
        (computeManifestHash (createCasManifest [] [] ⟨[], 1⟩ "t").manifest) c1WitPl.uid =
      some c1WitV1 ∧
    c1WitV1.uid ≠ c1WitPl.uid ∧
    c1WitPl.manifestFile = none ∧
    StoreWF ⟨[], 1⟩ ∧
    ((commitPush [] [] c1WitPush c1WitPl [c1WitV1, c1WitPl] ⟨[], 1⟩ 9 "t").outcome =
        PushOutcome.mapped c1WitV1.uid ∧
      (commitPush [] [] c1WitPush c1WitPl [c1WitV1, c1WitPl] ⟨[], 1⟩ 9 "t").push.status =
        PushStatus.done ∧
      (commitPush [] [] c1WitPush c1WitPl [c1WitV1, c1WitPl] ⟨[], 1⟩ 9 "t").push.versionUid =
        some c1WitV1.uid ∧
      (commitPush [] [] c1WitPush c1WitPl [c1WitV1, c1WitPl] ⟨[], 1⟩ 9 "t").versions =
        [c1WitV1, c1WitPl].filter (fun w => !(w.uid == c1WitPl.uid)) ∧
      (commitPush [] [] c1WitPush c1WitPl [c1WitV1, c1WitPl] ⟨[], 1⟩ 9 "t").store =
        (createCasManifest [] [] ⟨[], 1⟩ "t").store ∧
      (∀ h, refCountOf (commitPush [] [] c1WitPush c1WitPl [c1WitV1, c1WitPl] ⟨[], 1⟩ 9 "t").store
          h = refCountOf (⟨[], 1⟩ : BlobStore) h + (casEntryCount [] [] h : Int))) :=
  ⟨by decide, by decide, rfl, by decide,
   c1_duplicate_push_keeps_acquisitions [] [] c1WitPush c1WitPl [c1WitV1, c1WitPl] ⟨[], 1⟩ 9 "t"
     c1WitV1 (by decide) (by decide) rfl (by decide)⟩

/-! ## C2: failed pushes never release acquired blob references -/

def c2Ver : Version := { uid := "u2c", projectId := 0, status := .processing }

def c2Push : PendingPush :=
  { uid := "p2c", projectId := 0, status := .processing, versionUid := some "u2c" }

def c2Run : PendingPush × List Version × BlobStore :=
  runManifestThenFail c1FileList c1Fs c2Push [c2Ver] ⟨[], 1⟩ "boom" 3 "2024-01-01T00:00:00"

/-- C2 counterexample: a worker that fails right after building the
manifest for a single 2 MiB file.  The push is marked failed with
error_details set and the placeholder version is marked failed, but
the blob acquired for the manifest keeps ref_count 1 — it never
returns to its pre-push baseline of 0, since no code path on failure
touches the blob store. -/
theorem c2_counterexample :
    c2Run.1.status = PushStatus.failed ∧
    c2Run.1.errorDetails = some "boom" ∧
    c2Run.2.1.map (fun v => (v.uid, v.status)) = [("u2c", VStatus.failed)] ∧
    refCountOf (⟨[], 1⟩ : BlobStore) (some "aa") = 0 ∧
    refCountOf c2Run.2.2 (some "aa") = 1 := by
  decide

/-- C2 (amended): when a push worker fails after CAS blobs were
acquired, the push is marked failed with error_details set and its
version is marked failed — but no acquired blob reference is released:
the blob store keeps its post-acquisition state, each blob's ref_count
staying above its pre-push baseline by the number of cas entries
declaring its hash. -/
theorem c2_failure_releases_nothing (fileList : List FileEntryIn)
    (fs : List (String × FileData)) (push : PendingPush) (versions : List Version)
    (st : BlobStore) (errMsg : String) (now : Nat) (nowIso : String)
    (hwf : StoreWF st) (hmsg : errMsg ≠ "") :
    (runManifestThenFail fileList fs push versions st errMsg now nowIso).1.status =
        PushStatus.failed ∧
    (runManifestThenFail fileList fs push versions st errMsg now nowIso).1.errorDetails =
        some (sanitizeText errMsg) ∧
    (∀ u w, push.versionUid = some u →
      w ∈ (runManifestThenFail fileList fs push versions st errMsg now nowIso).2.1 →
      w.uid = u → w.status = VStatus.failed) ∧
    (runManifestThenFail fileList fs push versions st errMsg now nowIso).2.2 =
        (createCasManifest fileList fs st nowIso).store ∧
    (∀ h, refCountOf (runManifestThenFail fileList fs push versions st errMsg now nowIso).2.2 h =
        refCountOf st h + (casEntryCount fileList fs h : Int)) := by
  refine ⟨?_, ?_, ?_, ?_, ?_⟩
  · simp only [runManifestThenFail, handlePushFailure, markPushFailed]
    cases push.versionUid <;> simp
  · simp only [runManifestThenFail, handlePushFailure, markPushFailed]
    cases push.versionUid <;> simp [hmsg]
  · intro u w hu hw hwu
    simp only [runManifestThenFail, handlePushFailure, markPushFailed, hu] at hw
    rcases List.mem_map.mp hw with ⟨orig, horig, rfl⟩
    by_cases ho : orig.uid = u
    · simp [ho, markVersionFailed]
    · simp only [show (orig.uid == u) = false by simpa using ho, Bool.false_eq_true, if_false]
        at hwu ⊢
      exact absurd hwu ho
  · simp [runManifestThenFail]
  · intro h
    simpa [runManifestThenFail, createCasManifest] using createCasAux_refCount fileList fs st h hwf

/-- C2 witness: the amended theorem applied to the failing 2 MiB push
scenario. -/
theorem c2_witness :
    StoreWF ⟨[], 1⟩ ∧ "boom" ≠ "" ∧
    ((runManifestThenFail c1FileList c1Fs c2Push [c2Ver] ⟨[], 1⟩ "boom" 3
        "2024-01-01T00:00:00").1.status = PushStatus.failed ∧
      (runManifestThenFail c1FileList c1Fs c2Push [c2Ver] ⟨[], 1⟩ "boom" 3
        "2024-01-01T00:00:00").1.errorDetails = some (sanitizeText "boom") ∧
      (∀ u w, c2Push.versionUid = some u →
        w ∈ (runManifestThenFail c1FileList c1Fs c2Push [c2Ver] ⟨[], 1⟩ "boom" 3
          "2024-01-01T00:00:00").2.1 →
        w.uid = u → w.status = VStatus.failed) ∧
      (runManifestThenFail c1FileList c1Fs c2Push [c2Ver] ⟨[], 1⟩ "boom" 3
        "2024-01-01T00:00:00").2.2 =
        (createCasManifest c1FileList c1Fs ⟨[], 1⟩ "2024-01-01T00:00:00").store ∧
      (∀ h, refCountOf (runManifestThenFail c1FileList c1Fs c2Push [c2Ver] ⟨[], 1⟩ "boom" 3
          "2024-01-01T00:00:00").2.2 h =
        refCountOf (⟨[], 1⟩ : BlobStore) h + (casEntryCount c1FileList c1Fs h : Int))) :=
  ⟨by decide, by decide,
   c2_failure_releases_nothing c1FileList c1Fs c2Push [c2Ver] ⟨[], 1⟩ "boom" 3
     "2024-01-01T00:00:00" (by decide) (by decide)⟩

/-! ## C3: declared hashes are never verified -/

def c3Fs : List (String × FileData) := [("f.txt", ⟨1, [0]⟩)]

def c3FileList : List FileEntryIn := [⟨some "f.txt", some "deadbeef", none⟩]

def c3Ver : Version := { uid := "u3", projectId := 0, status := .processing }

def c3Push : PendingPush :=
  { uid := "p3", projectId := 0, status := .processing, versionUid := some "u3" }

def c3Run : CommitResult :=
  commitPush c3FileList c3Fs c3Push c3Ver [c3Ver] ⟨[], 1⟩ 4 "2024-01-01T00:00:00"

def c3FsB : List (String × FileData) := [("g.bin", ⟨2097152, [7]⟩)]

def c3FileListB : List FileEntryIn := [⟨some "g.bin", some "deadbeef", none⟩]

def c3VerB : Version := { uid := "u3b", projectId := 0, status := .processing }

def c3PushB : PendingPush :=
  { uid := "p3b", projectId := 0, status := .processing, versionUid := some "u3b" }

def c3RunB : CommitResult :=
  commitPush c3FileListB c3FsB c3PushB c3VerB [c3VerB] ⟨[], 1⟩ 4 "2024-01-01T00:00:00"

/-- C3 counterexample: a push declaring hash "deadbeef" for a one-byte
file whose actual SHA-256 is different completes with status done and
no error details — no HashMismatch exists anywhere in the pipeline.
For a large file the blob is stored keyed by the declared hash without
the content ever being hashed: the resulting blob carries hash
"deadbeef" over content whose SHA-256 differs. -/
theorem c3_counterexample :
    some (sha256Bytes [0]) ≠ (some "deadbeef" : Option String) ∧
    c3Run.outcome = PushOutcome.created "u3" ∧
    c3Run.push.status = PushStatus.done ∧
    c3Run.push.errorDetails = none ∧
    some (sha256Bytes [7]) ≠ (some "deadbeef" : Option String) ∧
    c3RunB.store.blobs.map (fun b => (b.hash, b.content, b.refCount)) =
      [(some "deadbeef", [7], 1)] ∧
    c3RunB.push.status = PushStatus.done := by
  decide

/-- C3 (amended): no hash verification happens anywhere in the push
pipeline: `get_or_create_blob` stores and keys the blob by the
declared hash without hashing the content, and the commit phase always
drives the push to done, never to a HashMismatch failure, whatever
hashes the file list declares. -/
theorem c3_no_hash_verification :
    (∀ (st : BlobStore) (fd : FileData) (fh : Option String),
      (getOrCreateBlob st fd fh).1.hash = fh) ∧
    (∀ (fileList : List FileEntryIn) (fs : List (String × FileData)) (push : PendingPush)
      (versionObj : Version) (versions : List Version) (st : BlobStore) (now : Nat)
      (nowIso : String),
      (commitPush fileList fs push versionObj versions st now nowIso).push.status =
        PushStatus.done) := by
  constructor
  · intro st fd fh
    cases hfind : st.blobs.find? (fun b => b.hash == fh) with
    | some b =>
      simp only [getOrCreateBlob, hfind]
      simpa using List.find?_some hfind
    | none => simp [getOrCreateBlob, hfind]
  · intro fileList fs push versionObj versions st now nowIso
    simp only [commitPush]
    cases hdup : dupLookup versions push.projectId
        (computeManifestHash (createCasManifest fileList fs st nowIso).manifest)
        versionObj.uid with
    | some ex => by_cases hne : ex.uid ≠ versionObj.uid <;> simp [hne]
    | none => simp

/-! ## C8: snapshot-versus-manifest storage decision -/

/-- C8: for a non-duplicate push, letting n be one plus the number of
completed versions of the project excluding the placeholder, the
completed version is stored as a full snapshot exactly when
n mod SNAPSHOT_INTERVAL (10) is zero — snapshot archive attached and
manifest reference cleared — and otherwise as a manifest with no
snapshot file, so exactly one of the two storage references is
present on completion. -/
theorem c8_storage_mode (fileList : List FileEntryIn) (fs : List (String × FileData))
    (push : PendingPush) (versionObj : Version) (versions : List Version) (st : BlobStore)
    (now : Nat) (nowIso : String)
    (hdup : dupLookup versions push.projectId
      (computeManifestHash (createCasManifest fileList fs st nowIso).manifest)
      versionObj.uid = none) :
    ∀ w ∈ (commitPush fileList fs push versionObj versions st now nowIso).versions,
      w.uid = versionObj.uid →
      w.status = VStatus.completed ∧
      (w.isSnapshot = true ↔
        ((versions.filter (isPrevCandidate push.projectId versionObj.uid)).length + 1) %
          SNAPSHOT_INTERVAL = 0) ∧
      (w.file.isSome ↔ w.isSnapshot = true) ∧
      (w.manifestFile.isSome ↔ w.isSnapshot = false) := by
  intro w hw hwu
  simp only [commitPush, hdup] at hw
  rcases List.mem_map.mp hw with ⟨orig, horig, rfl⟩
  by_cases ho : (orig.uid == versionObj.uid) = true
  · simp only [ho, if_true]
    cases hsnap : shouldCreateSnapshot
        ((versions.filter (isPrevCandidate push.projectId versionObj.uid)).length + 1) with
    | false =>
      have hn : ¬ ((versions.filter (isPrevCandidate push.projectId versionObj.uid)).length + 1) %
          SNAPSHOT_INTERVAL = 0 := by
        simpa [shouldCreateSnapshot] using hsnap
      simp [hsnap, hn]
    | true =>
      have hn : ((versions.filter (isPrevCandidate push.projectId versionObj.uid)).length + 1) %
          SNAPSHOT_INTERVAL = 0 := by
        simpa [shouldCreateSnapshot] using hsnap
      simp [hsnap, hn]
  · simp only [ho, Bool.false_eq_true, if_false] at hwu ⊢
    exact absurd hwu (by simpa using ho)

def c8WitRow : Version := (c3Run.versions).headD { uid := "", projectId := 0 }

/-- C8 witness: the storage-mode theorem applied to the first push of
a project (n = 1, not a multiple of 10): the completed row is a
manifest version with no snapshot file. -/
theorem c8_witness :
    dupLookup [c3Ver] c3Push.projectId
        (computeManifestHash
          (createCasManifest c3FileList c3Fs ⟨[], 1⟩ "2024-01-01T00:00:00").manifest)
        c3Ver.uid = none ∧
    c8WitRow ∈ c3Run.versions ∧
    c8WitRow.uid = c3Ver.uid ∧
    (c8WitRow.status = VStatus.completed ∧
      (c8WitRow.isSnapshot = true ↔
        (([c3Ver].filter (isPrevCandidate c3Push.projectId c3Ver.uid)).length + 1) %
          SNAPSHOT_INTERVAL = 0) ∧
      (c8WitRow.file.isSome ↔ c8WitRow.isSnapshot = true) ∧
      (c8WitRow.manifestFile.isSome ↔ c8WitRow.isSnapshot = false)) :=
  ⟨by decide, by decide, by decide,
   c8_storage_mode c3FileList c3Fs c3Push c3Ver [c3Ver] ⟨[], 1⟩ 4 "2024-01-01T00:00:00"
     (by decide) c8WitRow (by decide) (by decide)⟩

/-! ## C10: entries missing from the master directory are skipped -/

def presentIn (fs : List (String × FileData)) (e : FileEntryIn) : Bool :=
  match e.relativePath with
  | none => false
  | some p => !(p == "") && (fs.lookup p).isSome

def presentSize (fs : List (String × FileData)) (e : FileEntryIn) : Nat :=
  match e.relativePath with
  | none => 0
  | some p =>
    match fs.lookup p with
    | none => 0
    | some fd => fd.size

theorem createCasAux_entries_length :
    ∀ (fl : List FileEntryIn) (fs : List (String × FileData)) (st : BlobStore),
      (createCasAux fl fs st).entries.length = (fl.filter (presentIn fs)).length
  | [], _, _ => rfl
  | e :: rest, fs, st => by
    obtain ⟨rp, eh, lp⟩ := e
    cases rp with
    | none =>
      simpa [createCasAux, List.filter_cons, presentIn] using
        createCasAux_entries_length rest fs st
    | some p =>
      by_cases hp : p = ""
      · simpa [createCasAux, List.filter_cons, presentIn, hp] using
          createCasAux_entries_length rest fs st
      · cases hlk : fs.lookup p with
        | none =>
          simpa [createCasAux, List.filter_cons, presentIn, hp, hlk] using
            createCasAux_entries_length rest fs st
        | some fd =>
          by_cases hsz : CAS_SIZE_THRESHOLD < fd.size
          · simpa [createCasAux, List.filter_cons, presentIn, hp, hlk, hsz] using
              createCasAux_entries_length rest fs
                (incrementRef (getOrCreateBlob st fd eh).2 (getOrCreateBlob st fd eh).1.id)
          · simpa [createCasAux, List.filter_cons, presentIn, hp, hlk, hsz] using
              createCasAux_entries_length rest fs st

theorem createCasAux_totalSize :
    ∀ (fl : List FileEntryIn) (fs : List (String × FileData)) (st : BlobStore),
      (createCasAux fl fs st).totalSize = ((fl.filter (presentIn fs)).map (presentSize fs)).sum
  | [], _, _ => rfl
  | e :: rest, fs, st => by
    obtain ⟨rp, eh, lp⟩ := e
    cases rp with
    | none =>
      simpa [createCasAux, List.filter_cons, presentIn] using createCasAux_totalSize rest fs st
    | some p =>
      by_cases hp : p = ""
      · simpa [createCasAux, List.filter_cons, presentIn, hp] using
          createCasAux_totalSize rest fs st
      · cases hlk : fs.lookup p with
        | none =>
          simpa [createCasAux, List.filter_cons, presentIn, hp, hlk] using
            createCasAux_totalSize rest fs st
        | some fd =>
          by_cases hsz : CAS_SIZE_THRESHOLD < fd.size
          · simpa [createCasAux, List.filter_cons, presentIn, presentSize, hp, hlk, hsz] using
              createCasAux_totalSize rest fs
                (incrementRef (getOrCreateBlob st fd eh).2 (getOrCreateBlob st fd eh).1.id)
          · simpa [createCasAux, List.filter_cons, presentIn, presentSize, hp, hlk, hsz] using
              createCasAux_totalSize rest fs st

def c10FileList : List FileEntryIn :=
  [⟨some "a.txt", some "ha", none⟩, ⟨some "gone.txt", some "hg", none⟩]

def c10Fs : List (String × FileData) := [("a.txt", ⟨1, [0]⟩)]

def c10Ver : Version := { uid := "u10", projectId := 0, status := .processing }

def c10Push : PendingPush :=
  { uid := "p10", projectId := 0, status := .processing, versionUid := some "u10" }

def c10Run : CommitResult :=
  commitPush c10FileList c10Fs c10Push c10Ver [c10Ver] ⟨[], 1⟩ 6 "2024-01-01T00:00:00"

/-- C10: manifest construction silently skips file-list entries that
lack a relative path or whose file is absent from the master
directory: the manifest holds exactly one entry per present file and
total_size sums only present files — while the completed version's
file_count is the length of the whole filtered file list.  A push of
two entries, one of whose files does not exist, completes with
file_count 2 but a one-entry manifest of file_size 1. -/
theorem c10_absent_entries_silently_skipped :
    (∀ (fl : List FileEntryIn) (fs : List (String × FileData)) (st : BlobStore)
      (nowIso : String),
      (createCasManifest fl fs st nowIso).manifest.files.length =
          (fl.filter (presentIn fs)).length ∧
      (createCasManifest fl fs st nowIso).totalSize =
          ((fl.filter (presentIn fs)).map (presentSize fs)).sum) ∧
    (c10Run.push.status = PushStatus.done ∧
      c10Run.push.errorDetails = none ∧
      c10Run.versions.map (fun v =>
          (v.uid, v.status, v.fileCount, v.fileSize, v.manifestFile.map (fun m => m.files.length))) =
        [("u10", VStatus.completed, 2, 1, some 1)]) :=
  ⟨fun fl fs st nowIso =>
    ⟨by simpa [createCasManifest] using createCasAux_entries_length fl fs st,
     by simpa [createCasManifest] using createCasAux_totalSize fl fs st⟩,
   by decide⟩

/-! ## C4: version numbering by count of completed versions -/

/-- Model of `Version.assign_version_number` (`versions/models.py`
lines 243 to 255): when no number is assigned yet, it becomes one plus
the count of completed versions of the project excluding this row.
`process_pending_push_new` computes the same count at lines 432 to
438. -/
def assignVersionNumber (versions : List Version) (v : Version) : Version :=
  match v.versionNumber with
  | some _ => v
  | none =>
    let n := (versions.filter (fun w =>
      decide (w.projectId = v.projectId ∧ w.status = VStatus.completed ∧
        w.uid ≠ v.uid))).length + 1
    { v with versionNumber := some n }

/-- Model of `Version.mark_completed`: set status completed and
completion time, then assign the number if absent. -/
def markVersionCompleted (versions : List Version) (v : Version) (now : Nat) : Version :=
  assignVersionNumber versions { v with status := .completed, completedAt := some now }

/-- One push at the numbering level: a placeholder version is created
and completed against the current version table. -/
def completeNewVersion (versions : List Version) (uid : String) (now : Nat) : List Version :=
  versions ++
    [markVersionCompleted versions
      { uid := uid, projectId := 0, status := .processing, createdAt := now } now]

def c4S1 : List Version := completeNewVersion [] "a" 1

def c4S2 : List Version := completeNewVersion c4S1 "b" 2

def c4S3 : List Version := (deleteVersionRow { uid := "a", projectId := 0 } c4S2 ⟨[], 1⟩).1

def c4S4 : List Version := completeNewVersion c4S3 "c" 3

/-- C4 counterexample: a project completes versions "a" (number 1) and
"b" (number 2); version 1 is deleted; the next completed version
receives number count+1 = 2, not 3, so two completed versions share
version_number 2 and the claimed uniqueness and next-number-3
behaviour both fail. -/
theorem c4_counterexample :
    c4S2.map (fun v => (v.uid, v.versionNumber)) = [("a", some 1), ("b", some 2)] ∧
    c4S4.map (fun v => (v.uid, v.versionNumber)) = [("b", some 2), ("c", some 2)] ∧
    ¬ ((c4S4.filterMap Version.versionNumber).Nodup ∧
       (c4S4.filterMap Version.versionNumber).getLast? = some 3) := by
  decide

def c4Uid (k : Nat) : String := String.mk (List.replicate k 'a')

def c4Row (i : Nat) : Version :=
  { uid := c4Uid i, projectId := 0, status := .completed, versionNumber := some (i + 1),
    createdAt := i, completedAt := some i }

def c4Run : Nat → List Version
  | 0 => []
  | k + 1 => completeNewVersion (c4Run k) (c4Uid k) k

theorem c4Uid_injective {i k : Nat} (h : c4Uid i = c4Uid k) : i = k := by
  have hl := congrArg (fun s => s.data.length) h
  simpa [c4Uid] using hl

theorem c4Run_spec : ∀ k, c4Run k = (List.range k).map c4Row
  | 0 => rfl
  | k + 1 => by
    have ih := c4Run_spec k
    have hfil : ((List.range k).map c4Row).filter (fun w =>
        decide (w.projectId = 0 ∧ w.status = VStatus.completed ∧ w.uid ≠ c4Uid k)) =
        (List.range k).map c4Row := by
      apply List.filter_eq_self.mpr
      intro w hw
      rcases List.mem_map.mp hw with ⟨i, hi, rfl⟩
      have hik : i < k := List.mem_range.mp hi
      simp only [c4Row, decide_eq_true_eq]
      exact ⟨trivial, trivial, fun he => absurd (c4Uid_injective he) (by omega)⟩
    simp only [c4Run, ih, completeNewVersion, markVersionCompleted, assignVersionNumber, hfil]
    rw [List.range_succ, List.map_append]
    simp [c4Row]

/-- C4 (amended): version numbers are assigned at completion as one
plus the count of completed versions of the project; as long as no
version is deleted the completed versions of a project carry numbers
1, 2, ..., k in order — strictly increasing, starting at 1, pairwise
distinct; a version that already has a number is never renumbered.
After deleting version 1 of a project holding completed versions 1 and
2, however, the next version to complete receives number 2 (the count
plus one), duplicating the surviving version 2 — not number 3 as
claimed. -/
theorem c4_count_based_numbering :
    (∀ k, (c4Run k).map Version.versionNumber = (List.range k).map (fun i => some (i + 1))) ∧
    (∀ (versions : List Version) (v : Version) (n : Nat),
      assignVersionNumber versions { v with versionNumber := some n } =
        { v with versionNumber := some n }) ∧
    c4S4.map (fun v => (v.uid, v.versionNumber)) = [("b", some 2), ("c", some 2)] := by
  refine ⟨fun k => ?_, fun versions v n => rfl, by decide⟩
  rw [c4Run_spec k, List.map_map]
  rfl

/-! ## C9: download request coalescing

Model of `RequestVersionDownloadView.post` (`versions/views.py` lines
248 to 318) and `DownloadRequest` (`versions/models.py`).  Time is in
minutes; `EXPIRATION_HOURS = 1` means sixty minutes.  The view's
recent-request filter uses `timedelta(minutes=30)`. -/

inductive DownloadStatus where
  | pending
  | processing
  | completed
  | failed
  | expired
deriving DecidableEq

structure DownloadRequest where
  uid : String
  versionUid : String
  requestedBy : Nat
  status : DownloadStatus := .pending
  progress : Nat := 0
  message : Option String := none
  createdAt : Int
  completedAt : Option Int := none
  expiresAt : Option Int := none
deriving DecidableEq

def EXPIRATION_HOURS : Nat := 1

/-- Model of `DownloadRequest.is_expired`: true when `expires_at` is
set and strictly before now. -/
def isExpired (r : DownloadRequest) (now : Int) : Bool :=
  match r.expiresAt with
  | some e => decide (e < now)
  | none => false

/-- The queryset filter of the view: same version, same requester,
status pending, processing or completed, created within the last 30
minutes. -/
def recentMatch (now : Int) (userId : Nat) (vuid : String) (r : DownloadRequest) : Bool :=
  r.versionUid == vuid && r.requestedBy == userId &&
    (r.status == DownloadStatus.pending || r.status == DownloadStatus.processing ||
      r.status == DownloadStatus.completed) &&
    decide (now - 30 ≤ r.createdAt)

/-- `.first()` under the model's default ordering `-created_at`: a row
maximizing `created_at`. -/
def latestRequest (reqs : List DownloadRequest) : Option DownloadRequest :=
  reqs.foldl (fun acc r =>
    match acc with
    | none => some r
    | some b => if b.createdAt < r.createdAt then some r else some b) none

inductive DownloadOutcome where
  | notReady
  | existing (uid : String)
  | created (uid : String)
deriving DecidableEq

def newDownloadRequest (now : Int) (userId : Nat) (vuid : String) (newUid : String) :
    DownloadRequest :=
  { uid := newUid, versionUid := vuid, requestedBy := userId, status := .pending,
    progress := 0, message := some "Download request queued", createdAt := now }

def requestVersionDownload (now : Int) (userId : Nat) (v : Version)
    (reqs : List DownloadRequest) (newUid : String) :
    DownloadOutcome × List DownloadRequest :=
  if v.status ≠ VStatus.completed then (.notReady, reqs)
  else
    match latestRequest (reqs.filter (recentMatch now userId v.uid)) with
    | some r =>
      if r.status = DownloadStatus.completed ∧ isExpired r now = false then (.existing r.uid, reqs)
      else if r.status = DownloadStatus.pending ∨ r.status = DownloadStatus.processing then
        (.existing r.uid, reqs)
      else (.created newUid, reqs ++ [newDownloadRequest now userId v.uid newUid])
    | none => (.created newUid, reqs ++ [newDownloadRequest now userId v.uid newUid])

theorem latestRequest_aux_mem :
    ∀ (l : List DownloadRequest) (acc : Option DownloadRequest) (r : DownloadRequest),
      l.foldl (fun acc r =>
        match acc with
        | none => some r
        | some b => if b.createdAt < r.createdAt then some r else some b) acc = some r →
      r ∈ l ∨ acc = some r
  | [], _, _, h => Or.inr h
  | x :: xs, acc, r, h => by
    rcases latestRequest_aux_mem xs _ r h with hm | hacc
    · exact Or.inl (List.mem_cons_of_mem x hm)
    · cases acc with
      | none =>
        simp only at hacc
        have hxr : x = r := Option.some.inj hacc
        exact Or.inl (hxr ▸ List.mem_cons_self x xs)
      | some b =>
        simp only at hacc
        by_cases hlt : b.createdAt < x.createdAt
        · rw [if_pos hlt] at hacc
          have hxr : x = r := Option.some.inj hacc
          exact Or.inl (hxr ▸ List.mem_cons_self x xs)
        · rw [if_neg hlt] at hacc
          exact Or.inr hacc

theorem latestRequest_mem (l : List DownloadRequest) (r : DownloadRequest)
    (h : latestRequest l = some r) : r ∈ l := by
  rcases latestRequest_aux_mem l none r h with hm | hacc
  · exact hm
  · exact absurd hacc (by simp)

theorem latestRequest_aux_isSome :
    ∀ (l : List DownloadRequest) (b : DownloadRequest),
      (l.foldl (fun acc r =>
        match acc with
        | none => some r
        | some b => if b.createdAt < r.createdAt then some r else some b) (some b)).isSome = true
  | [], _ => rfl
  | x :: xs, b => by
    simp only [List.foldl_cons]
    by_cases hlt : b.createdAt < x.createdAt
    · simpa [hlt] using latestRequest_aux_isSome xs x
    · simpa [hlt] using latestRequest_aux_isSome xs b

def reqWFb (r : DownloadRequest) : Bool :=
  match r.status, r.completedAt with
  | .completed, some c => decide (r.createdAt ≤ c) && (r.expiresAt == some (c + 60))
  | .completed, none => false
  | _, _ => true

/-- Completed download requests carry `expires_at = completed_at + 1h`
with a completion time not before creation, as `mark_completed`
(`versions/models.py` lines 490 to 505) guarantees. -/
def ReqsWF (reqs : List DownloadRequest) : Prop := ∀ r ∈ reqs, reqWFb r = true

instance (reqs : List DownloadRequest) : Decidable (ReqsWF reqs) :=
  inferInstanceAs (Decidable (∀ r ∈ reqs, reqWFb r = true))

def c9Version : Version := { uid := "v9", projectId := 0, status := .completed }

def c9Req : DownloadRequest :=
  { uid := "d1", versionUid := "v9", requestedBy := 1, status := .completed,
    createdAt := 55, completedAt := some 60, expiresAt := some 120 }

def c9Run : DownloadOutcome × List DownloadRequest :=
  requestVersionDownload 100 1 c9Version [c9Req] "d2"

/-- C9 counterexample: at minute 100, the same user requests a
download of a version for which they hold a completed, unexpired
request created at minute 55 — 45 minutes ago, within the last
EXPIRATION_HOURS (60 minutes).  The claim says this request is
returned; the view's filter only looks back `timedelta(minutes=30)`,
so a brand-new request is created instead. -/
theorem c9_counterexample :
    (c9Req.status = DownloadStatus.completed ∧ isExpired c9Req 100 = false ∧
      c9Req.requestedBy = 1 ∧ c9Req.versionUid = c9Version.uid ∧
      (100 : Int) - 60 * (EXPIRATION_HOURS : Int) ≤ c9Req.createdAt) ∧
    c9Run.1 = DownloadOutcome.created "d2" ∧
    c9Run.2.length = 2 := by
  decide

/-- C9 (amended): the coalescing window is 30 minutes, not
EXPIRATION_HOURS: for a completed version, and under the invariant
that completed requests expire one hour after a completion that is not
before their creation, the view returns an existing request exactly
when some pending, processing or completed request by the same user
for the same version was created within the last 30 minutes; when no
such request exists a new pending request is appended. -/
theorem c9_thirty_minute_window (now : Int) (userId : Nat) (v : Version)
    (reqs : List DownloadRequest) (newUid : String)
    (hv : v.status = VStatus.completed) (hwf : ReqsWF reqs) :
    ((∃ r ∈ reqs, recentMatch now userId v.uid r = true) →
      ∃ r ∈ reqs, recentMatch now userId v.uid r = true ∧
        requestVersionDownload now userId v reqs newUid = (.existing r.uid, reqs)) ∧
    ((∀ r ∈ reqs, recentMatch now userId v.uid r = false) →
      requestVersionDownload now userId v reqs newUid =
        (.created newUid, reqs ++ [newDownloadRequest now userId v.uid newUid])) := by
  have hnv : ¬ v.status ≠ VStatus.completed := by simp [hv]
  constructor
  · rintro ⟨r0, hr0, hm0⟩
    obtain ⟨r, hr⟩ : ∃ r, latestRequest (reqs.filter (recentMatch now userId v.uid)) = some r := by
      cases hl : reqs.filter (recentMatch now userId v.uid) with
      | nil =>
        have hmem : r0 ∈ reqs.filter (recentMatch now userId v.uid) :=
          List.mem_filter.mpr ⟨hr0, hm0⟩
        rw [hl] at hmem
        exact absurd hmem (List.not_mem_nil r0)
      | cons x xs =>
        have hs : (latestRequest (x :: xs)).isSome = true := by
          simpa [latestRequest] using latestRequest_aux_isSome xs x
        exact Option.isSome_iff_exists.mp hs
    have hrmem := latestRequest_mem _ _ hr
    have hrmatch : recentMatch now userId v.uid r = true := (List.mem_filter.mp hrmem).2
    have hrreqs : r ∈ reqs := (List.mem_filter.mp hrmem).1
    refine ⟨r, hrreqs, hrmatch, ?_⟩
    have hcreated : now - 30 ≤ r.createdAt := by
      have := hrmatch
      simp only [recentMatch, Bool.and_eq_true, decide_eq_true_eq] at this
      exact this.2
    unfold requestVersionDownload
    rw [if_neg hnv, hr]
    cases hst : r.status with
    | pending => simp [hst]
    | processing => simp [hst]
    | completed =>
      have hwfr := hwf r hrreqs
      cases hc : r.completedAt with
      | none =>
        rw [reqWFb, hst, hc] at hwfr
        exact absurd hwfr (by simp)
      | some c =>
        rw [reqWFb, hst, hc] at hwfr
        simp only [Bool.and_eq_true, decide_eq_true_eq, beq_iff_eq] at hwfr
        have hexp : isExpired r now = false := by
          rw [isExpired, hwfr.2]
          simp only [decide_eq_false_iff_not]
          omega
        simp [hst, hexp]
    | failed =>
      rw [recentMatch, hst] at hrmatch
      exact absurd hrmatch (by simp)
    | expired =>
      rw [recentMatch, hst] at hrmatch
      exact absurd hrmatch (by simp)
  · intro hall
    have hnil : reqs.filter (recentMatch now userId v.uid) = [] := by
      rw [List.filter_eq_nil_iff]
      intro r hrr
      simp [hall r hrr]
    unfold requestVersionDownload
    rw [if_neg hnv, hnil]
    rfl

def c9WitReq : DownloadRequest :=
  { uid := "dw", versionUid := "v9", requestedBy := 1, status := .completed,
    createdAt := 80, completedAt := some 85, expiresAt := some 145 }

/-- C9 witness: the amended theorem applied at minute 100 to a user
holding a completed request created at minute 80 (within the 30-minute
window, unexpired): the existing request is returned and no row is
appended. -/
theorem c9_witness :
    c9Version.status = VStatus.completed ∧
    ReqsWF [c9WitReq] ∧
    (((∃ r ∈ [c9WitReq], recentMatch 100 1 c9Version.uid r = true) →
      ∃ r ∈ [c9WitReq], recentMatch 100 1 c9Version.uid r = true ∧
        requestVersionDownload 100 1 c9Version [c9WitReq] "dn" =
          (.existing r.uid, [c9WitReq])) ∧
    ((∀ r ∈ [c9WitReq], recentMatch 100 1 c9Version.uid r = false) →
      requestVersionDownload 100 1 c9Version [c9WitReq] "dn" =
        (.created "dn", [c9WitReq] ++ [newDownloadRequest 100 1 c9Version.uid "dn"]))) :=
  ⟨by decide, by decide,
   c9_thirty_minute_window 100 1 c9Version [c9WitReq] "dn" (by decide) (by decide)⟩
